import Mathlib

/-!
Verification of the stu-calendar-wrangler-worker calendar engine
(`src/index.js`): ICS parsing, date resolution, the windowing/grouping
engine, and API-key validation.

Modelling conventions:
* JS strings are modelled as `List Char` (`Str`); the built-in `String`
  functions are avoided so that every definition evaluates by `decide`.
* Instants are integer seconds since the Unix epoch, at second granularity
  (luxon works in milliseconds; no claim below distinguishes the two, and
  "end of day" is 23:59:59 at this granularity).
* A time zone is a fixed offset in seconds east of UTC.  This captures
  `setZone` conversions exactly on DST-free spans; luxon's IANA zone
  database is outside the program text.
* The implicit `DateTime.now()` calls are made explicit as a reference
  instant `now0` threaded through the pipeline.
-/

abbrev Str := List Char

/-! ## Time model (luxon `DateTime` at second granularity) -/

/-- Calendar-day number (days since 1970-01-01) of instant `t` as seen in the
zone with offset `z` seconds east of UTC.  Models
`DateTime.setZone(tz).toISODate()`: two instants get the same `localDay`
exactly when they print the same ISO date. -/
def localDay (z t : Int) : Int := (t + z) / 86400

/-- Models `DateTime.setZone(tz).startOf('day')`: the instant of local
midnight of `t`'s local calendar day. -/
def startOfDay (z t : Int) : Int := (t + z) / 86400 * 86400 - z

/-- Models `DateTime.endOf('day')` at second granularity: 23:59:59 local
time of `t`'s local calendar day. -/
def endOfDay (z t : Int) : Int := startOfDay z t + 86399

/-- The instant of local midnight of calendar-day number `d` in offset `z`. -/
def dayStart (z d : Int) : Int := d * 86400 - z

theorem startOfDay_eq_dayStart (z t : Int) : startOfDay z t = dayStart z (localDay z t) := rfl

theorem localDay_dayStart (z d : Int) : localDay z (dayStart z d) = d := by
  simp only [localDay, dayStart]; omega

theorem startOfDay_dayStart (z d : Int) : startOfDay z (dayStart z d) = dayStart z d := by
  simp only [startOfDay, dayStart]; omega

theorem dayStart_le_iff (z d t : Int) : dayStart z d ≤ t ↔ d ≤ localDay z t := by
  simp only [localDay, dayStart]; omega

theorem dayStart_localDay_le (z t : Int) : dayStart z (localDay z t) ≤ t := by
  simp only [localDay, dayStart]; omega

theorem localDay_add_day (z t : Int) : localDay z (t + 86400) = localDay z t + 1 := by
  simp only [localDay]; omega

theorem startOfDay_add_day (z t : Int) :
    startOfDay z (t + 86400) = dayStart z (localDay z t + 1) := by
  simp only [startOfDay, dayStart, localDay]; omega

/-! ## Character-level string primitives (JS string operations on `Str`) -/

/-- Models `String.prototype.split(sep)` for a one-character separator
(as with JS `split`, empty pieces are kept). -/
def splitOnChar (c : Char) : Str → List Str
  | [] => [[]]
  | x :: xs =>
    let r := splitOnChar c xs
    if x = c then [] :: r
    else
      match r with
      | [] => [[x]]
      | h :: t => (x :: h) :: t

/-- Models `Array.prototype.join(sep)` for a one-character separator. -/
def joinChar (c : Char) : List Str → Str
  | [] => []
  | [s] => s
  | s :: rest => s ++ c :: joinChar c rest

/-- Models `String.prototype.trim`. -/
def trimStr (s : Str) : Str :=
  ((s.dropWhile Char.isWhitespace).reverse.dropWhile Char.isWhitespace).reverse

/-- Models `String.prototype.includes`. -/
def containsStr : Str → Str → Bool
  | [], pat => pat.isEmpty
  | s@(_ :: rest), pat => pat.isPrefixOf s || containsStr rest pat

/-- Models `ics.split(/\r?\n/)`: split on LF, stripping one trailing CR from
each piece (the regex consumes an optional CR right before each LF). -/
def splitICSLines (ics : Str) : List Str :=
  (splitOnChar '\n' ics).map (fun l => if l.getLast? = some '\x0d' then l.dropLast else l)

/-! ## Date parsing (`parseICSDate`) -/

/-- Numeric value of a digit string (the `parseInt` applied to each captured
regex group). -/
def digitsVal (ds : Str) : Int := ds.foldl (fun n c => n * 10 + ((c.toNat : Int) - 48)) 0

/-- Days from 1970-01-01 to the proleptic-Gregorian date `y-m-d`
(Howard Hinnant's `days_from_civil`, floor-division form). -/
def daysFromCivil (y m d : Int) : Int :=
  let y' := if m ≤ 2 then y - 1 else y
  let era := y' / 400
  let yoe := y' - era * 400
  let mp := if m ≤ 2 then m + 9 else m - 3
  let doy := (153 * mp + 2) / 5 + d - 1
  let doe := yoe * 365 + yoe / 4 - yoe / 100 + doy
  era * 146097 + doe - 719468

/-- Models `DateTime.utc(y, m, d, h, mi, s)` as an instant.  luxon flags
out-of-range components as an Invalid DateTime; no claim below depends on
out-of-range components and the embedding totalises them arithmetically. -/
def utcInstant (y m d h mi s : Int) : Int :=
  daysFromCivil y m d * 86400 + h * 3600 + mi * 60 + s

/-- Models `icsDate.replace('Z', '')`: JS `replace` with a plain-string
pattern removes only the first occurrence, wherever it sits in the value. -/
def removeFirstZ : Str → Str
  | [] => []
  | c :: cs => if c = 'Z' then cs else c :: removeFirstZ cs

def allDigits (s : Str) : Bool := s.all Char.isDigit

/-- Models the all-day regex `^(\d{4})(\d{2})(\d{2})$`. -/
def matchAllDay : Str → Option (Int × Int × Int)
  | [a, b, c, d, e, f, g, h] =>
    if allDigits [a, b, c, d, e, f, g, h] then
      some (digitsVal [a, b, c, d], digitsVal [e, f], digitsVal [g, h])
    else none
  | _ => none

/-- The time-of-day tail `(\d{2})?(\d{2})?(\d{2})?$` after the optional `T`:
the remainder must be 0, 2, 4 or 6 digits; absent pairs default to 0. -/
def matchHMS : Str → Option (Int × Int × Int)
  | [] => some (0, 0, 0)
  | [p, q] => if allDigits [p, q] then some (digitsVal [p, q], 0, 0) else none
  | [p, q, r, s] =>
    if allDigits [p, q, r, s] then some (digitsVal [p, q], digitsVal [r, s], 0) else none
  | [p, q, r, s, t, u] =>
    if allDigits [p, q, r, s, t, u] then
      some (digitsVal [p, q], digitsVal [r, s], digitsVal [t, u])
    else none
  | _ => none

/-- Models the timed regex `^(\d{4})(\d{2})(\d{2})T?(\d{2})?(\d{2})?(\d{2})?$`. -/
def matchTimed : Str → Option (Int × Int × Int × Int × Int × Int)
  | a :: b :: c :: d :: e :: f :: g :: h :: rest =>
    if allDigits [a, b, c, d, e, f, g, h] then
      let rest' := match rest with
        | 'T' :: r => r
        | r => r
      match matchHMS rest' with
      | some (hh, mm, ss) =>
        some (digitsVal [a, b, c, d], digitsVal [e, f], digitsVal [g, h], hh, mm, ss)
      | none => none
    else none
  | _ => none

/-- Models `parseICSDate(icsDate, isAllDay)` of src/index.js, with the
implicit `DateTime.now()` made explicit as `now0`.  `none` and the empty
string both model the falsy check `if (!icsDate)`. -/
def parseICSDate (icsDate : Option Str) (isAllDay : Bool) (now0 : Int) : Int :=
  match icsDate with
  | none => now0
  | some s0 =>
    if s0.isEmpty then now0
    else
      let s := removeFirstZ s0
      let timed : Int :=
        match matchTimed s with
        | some (y, mo, d, h, mi, sec) => utcInstant y mo d h mi sec
        | none => now0
      if isAllDay then
        match matchAllDay s with
        | some (y, mo, d) => utcInstant y mo d 0 0 0
        | none => timed
      else timed

/-! ## ICS parsing (`parseICS`, `formatEvent`) -/

/-- The raw per-event accumulator (`event = {}` in `parseICS`): a JS object
used as a string-keyed property bag plus its `isAllDay` flag. -/
structure RawEvent where
  props : List (Str × Str)
  isAllDay : Bool
deriving Repr, DecidableEq

/-- JS object property read, `event[key]`. -/
def getProp : List (Str × Str) → Str → Option Str
  | [], _ => none
  | (k, v) :: rest, key => if k = key then some v else getProp rest key

/-- JS object property write, `event[key] = value` (last write wins). -/
def setProp : List (Str × Str) → Str → Str → List (Str × Str)
  | [], k, v => [(k, v)]
  | (k', v') :: rest, k, v =>
    if k' = k then (k, v) :: rest else (k', v') :: setProp rest k v

/-- The canonical event record produced by `formatEvent`.  The source field
`end` is called `stop` here (`end` is reserved in Lean); `start`/`stop` keep
the instant directly, since `toISO()` round-trips through
`DateTime.fromISO` downstream without changing the instant. -/
structure NormalizedEvent where
  title : Str
  start : Int
  stop : Int
  description : Str
  isAllDay : Bool
deriving Repr, DecidableEq

/-- Models `formatEvent(event)` of src/index.js. -/
def formatEvent (ev : RawEvent) (now0 : Int) : NormalizedEvent :=
  let dtstart := getProp ev.props "DTSTART".toList
  let dtend :=
    match getProp ev.props "DTEND".toList with
    | some s => if s.isEmpty then dtstart else some s
    | none => dtstart
  { title := (getProp ev.props "SUMMARY".toList).getD []
    start := parseICSDate dtstart ev.isAllDay now0
    stop := parseICSDate dtend ev.isAllDay now0
    description := (getProp ev.props "DESCRIPTION".toList).getD []
    isAllDay := ev.isAllDay }

/-- One step of the `lines.forEach` loop of `parseICS`.  The state is the
list of finished events plus the currently open raw event (JS `event`,
null when no `BEGIN:VEVENT` block is open). -/
def parseICSLine (now0 : Int) (st : List NormalizedEvent × Option RawEvent) (line : Str) :
    List NormalizedEvent × Option RawEvent :=
  if "BEGIN:VEVENT".toList.isPrefixOf line then (st.1, some ⟨[], false⟩)
  else if "END:VEVENT".toList.isPrefixOf line then
    match st.2 with
    | some ev => (st.1 ++ [formatEvent ev now0], none)
    | none => (st.1, none)
  else
    match st.2 with
    | none => st
    | some ev =>
      match splitOnChar ':' line with
      | [] => st
      | key :: valueParts =>
        if key ≠ [] ∧ valueParts ≠ [] then
          let value := trimStr (joinChar ':' valueParts)
          let keyParts := splitOnChar ';' key
          let mainKey := trimStr (keyParts.headD [])
          let allDay := ev.isAllDay || keyParts.any (fun p => containsStr p "VALUE=DATE".toList)
          (st.1, some ⟨setProp ev.props mainKey value, allDay⟩)
        else st

/-- Models `parseICS(ics)` of src/index.js. -/
def parseICS (ics : Str) (now0 : Int) : List NormalizedEvent :=
  ((splitICSLines ics).foldl (parseICSLine now0) ([], none)).1

/-! ## The windowing and grouping engine (`createGroupedEvents`) -/

/-- One calendar day's slice of an event, as pushed into
`groupedByDate[dateKey]`.  The source field `end` is called `stop`;
`timezone` carries the request zone echoed onto every segment (a zone name
string in the source, the zone's offset here). -/
structure DaySegment where
  title : Str
  start : Int
  stop : Int
  description : Str
  isFullDay : Bool
  crossDay : Bool
  timezone : Int
deriving Repr, DecidableEq

/-- The comparator of `groupedByDate[date].sort((a, b) => ...)`: full-day
segments first, then by start instant.  Note it never returns 0: for equal
start instants it returns 1. -/
def segCmp (a b : DaySegment) : Int :=
  if a.isFullDay && !b.isFullDay then -1
  else if !a.isFullDay && b.isFullDay then 1
  else if a.start < b.start then -1 else 1

/-- Insert `x` into `acc` directly before the first element `y` with
`cmp x y < 0`.  ECMAScript requires `Array.prototype.sort` to be stable;
for a comparator that never returns 0 the engines' insertion/merge sorts
place each element after every element it does not compare strictly less
than, which is exactly this insertion rule. -/
def insertCmp (cmp : α → α → Int) (x : α) : List α → List α
  | [] => [x]
  | y :: ys => if cmp x y < 0 then x :: y :: ys else y :: insertCmp cmp x ys

/-- Stable sort by a JS comparator (see `insertCmp`). -/
def sortCmp (cmp : α → α → Int) (l : List α) : List α :=
  l.foldl (fun acc x => insertCmp cmp x acc) []

/-- `groupedByDate[dateKey].push(seg)` with on-demand bucket creation.  JS
object keys that are ISO date strings keep insertion order, so the bucket
list is an insertion-ordered association list. -/
def pushSeg (key : Int) (seg : DaySegment) :
    List (Int × List DaySegment) → List (Int × List DaySegment)
  | [] => [(key, [seg])]
  | (k, segs) :: rest =>
    if k = key then (k, segs ++ [seg]) :: rest else (k, segs) :: pushSeg key seg rest

/-- `groupedByDate[d]`, with `[]` for a missing key. -/
def bucketGet (d : Int) : List (Int × List DaySegment) → List DaySegment
  | [] => []
  | (k, segs) :: rest => if k = d then segs else bucketGet d rest

/-- The `while (currentDate <= end && currentDate < endDate)` loop of
`createGroupedEvents`, returning the keyed continuation segments (one per
day) that the loop pushes.  `fuel` only bounds the recursion so that the
definition is structural; `segmentsOfEvent` supplies enough fuel that the
loop always terminates through its own condition first
(see `crossLoop_fuel_sufficient`). -/
def crossLoop (z : Int) (ev : NormalizedEvent) (stop endDate endDayN : Int) :
    Nat → Int → List (Int × DaySegment)
  | 0, _ => []
  | fuel + 1, cur =>
    if cur ≤ stop ∧ cur < endDate then
      (localDay z cur,
        { title := ev.title, start := cur,
          stop := if localDay z cur = endDayN then stop else endOfDay z cur,
          description := ev.description, isFullDay := ev.isAllDay,
          crossDay := true, timezone := z }) ::
      crossLoop z ev stop endDate endDayN fuel (cur + 86400)
    else []

/-- The body of the `events.forEach` of `createGroupedEvents` for a single
event: the window filter (`end < now`, `start > endDate`) plus the keyed
DaySegments the event pushes — first the unconditional start-day segment,
then, for a midnight-crossing event, the continuation loop. -/
def segmentsOfEvent (z now endDate : Int) (ev : NormalizedEvent) : List (Int × DaySegment) :=
  if ev.stop < now then []
  else if ev.start > endDate then []
  else
    let startDayN := localDay z ev.start
    let endDayN := localDay z ev.stop
    let crossDay : Bool := decide (startDayN ≠ endDayN)
    (startDayN,
      { title := ev.title, start := ev.start,
        stop := if crossDay then endOfDay z ev.start else ev.stop,
        description := ev.description, isFullDay := ev.isAllDay,
        crossDay := crossDay, timezone := z }) ::
    (if crossDay then
        crossLoop z ev ev.stop endDate endDayN
          ((ev.stop + 86400 - startOfDay z (ev.start + 86400)).toNat)
          (startOfDay z (ev.start + 86400))
      else [])

/-- The fully built `groupedByDate` object: every event's keyed segments
pushed in encounter order. -/
def groupPairs (events : List NormalizedEvent) (z now endDate : Int) :
    List (Int × List DaySegment) :=
  events.foldl
    (fun acc ev => (segmentsOfEvent z now endDate ev).foldl (fun a p => pushSeg p.1 p.2 a) acc)
    []

/-- One `(date, events)` entry of the final agenda. -/
structure AgendaDay where
  date : Int
  events : List DaySegment
deriving Repr, DecidableEq

/-- The `request` metadata object of the result. -/
structure RequestInfo where
  calendar : Str
  days : Int
  requestedTimezone : Int
deriving Repr, DecidableEq

/-- The result shape of `createGroupedEvents`. -/
structure GroupedResult where
  agenda : List AgendaDay
  timezone : Int
  request : RequestInfo
deriving Repr, DecidableEq

/-- Splits `s` at the first occurrence of `pat` (`none` if absent). -/
def breakAtSub (pat : Str) : Str → Option (Str × Str)
  | [] => if pat.isEmpty then some ([], []) else none
  | c :: rest =>
    if pat.isPrefixOf (c :: rest) then some ([], (c :: rest).drop pat.length)
    else
      match breakAtSub pat rest with
      | some (l, r) => some (c :: l, r)
      | none => none

/-- Models `getCalendarDomain`: `new URL(url).hostname` with the catch
returning "unknown".  The WHATWG URL parser is abstracted: a value with a
`scheme://` delimiter yields the host part up to the first `/`, `:`, `?`
or `#`; anything else fails to parse, i.e. yields "unknown".  No claim
depends on the precise hostname grammar. -/
def getCalendarDomain (url : Str) : Str :=
  match breakAtSub "://".toList url with
  | some (scheme, rest) =>
    if scheme.isEmpty then "unknown".toList
    else
      let host := rest.takeWhile (fun c => c ≠ '/' && c ≠ ':' && c ≠ '?' && c ≠ '#')
      if host.isEmpty then "unknown".toList else host
  | none => "unknown".toList

/-- Models `createGroupedEvents(events, days, timezone, requestUrl)` of
src/index.js, with the implicit `DateTime.now()` injected as `now0`.
Bucket entries are sorted within each day by `segCmp`, then the buckets by
date (`localeCompare` on zero-padded ISO date strings is exactly the
numeric order of day numbers). -/
def createGroupedEvents (events : List NormalizedEvent) (days : Int) (z : Int)
    (requestUrl : Str) (now0 : Int) : GroupedResult :=
  let now := startOfDay z now0
  let endDate := now + days * 86400
  let grouped := groupPairs events z now endDate
  let sortedWithin := grouped.map (fun p => (p.1, sortCmp segCmp p.2))
  let agenda := (sortCmp (fun a b => if a.1 < b.1 then (-1 : Int) else 1) sortedWithin).map
    (fun p => AgendaDay.mk p.1 p.2)
  { agenda := agenda, timezone := z,
    request := { calendar := getCalendarDomain requestUrl, days := days, requestedTimezone := z } }


/-! ## Bucket and grouping lemmas -/

/-- `[a, a+1, ..., a+n-1]` as integers. -/
def intRange (a : Int) : Nat → List Int
  | 0 => []
  | n + 1 => a :: intRange (a + 1) n

theorem intRange_succ (a : Int) (n : Nat) : intRange a (n + 1) = a :: intRange (a + 1) n := rfl

theorem bucketGet_pushSeg (d key : Int) (seg : DaySegment) (b : List (Int × List DaySegment)) :
    bucketGet d (pushSeg key seg b) =
      if key = d then bucketGet d b ++ [seg] else bucketGet d b := by
  induction b with
  | nil =>
    simp only [pushSeg, bucketGet]
    split <;> simp_all [bucketGet]
  | cons hd rest ih =>
    obtain ⟨k, segs⟩ := hd
    simp only [pushSeg]
    by_cases hk : k = key
    · subst hk
      simp only [if_pos rfl, bucketGet]
      split <;> simp_all
    · simp only [if_neg hk, bucketGet]
      by_cases hd : k = d
      · subst hd
        simp only [if_pos rfl]
        have : key ≠ k := fun h => hk h.symm
        simp [this]
      · simp [hd, ih]

theorem bucketGet_pushList (d : Int) (segs : List (Int × DaySegment))
    (acc : List (Int × List DaySegment)) :
    bucketGet d (segs.foldl (fun a p => pushSeg p.1 p.2 a) acc) =
      bucketGet d acc ++ segs.filterMap (fun p => if p.1 = d then some p.2 else none) := by
  induction segs generalizing acc with
  | nil => simp
  | cons p rest ih =>
    simp only [List.foldl_cons, List.filterMap_cons]
    rw [ih, bucketGet_pushSeg]
    split <;> simp_all

theorem bucketGet_groupFold (d : Int) (events : List NormalizedEvent) (z now endDate : Int)
    (acc : List (Int × List DaySegment)) :
    bucketGet d (events.foldl
        (fun acc ev => (segmentsOfEvent z now endDate ev).foldl (fun a p => pushSeg p.1 p.2 a) acc)
        acc) =
      bucketGet d acc ++
        (events.map (segmentsOfEvent z now endDate)).foldr
          (fun segs r => segs.filterMap (fun p => if p.1 = d then some p.2 else none) ++ r) [] := by
  induction events generalizing acc with
  | nil => simp
  | cons ev rest ih =>
    simp only [List.foldl_cons, List.map_cons, List.foldr_cons]
    rw [ih, bucketGet_pushList, List.append_assoc]

theorem bucketGet_groupPairs (d : Int) (events : List NormalizedEvent) (z now endDate : Int) :
    bucketGet d (groupPairs events z now endDate) =
      (events.map (segmentsOfEvent z now endDate)).foldr
        (fun segs r => segs.filterMap (fun p => if p.1 = d then some p.2 else none) ++ r) [] := by
  have h := bucketGet_groupFold d events z now endDate []
  simpa [groupPairs, bucketGet] using h

theorem mem_of_bucketGet_ne_nil {d : Int} {b : List (Int × List DaySegment)}
    (h : bucketGet d b ≠ []) : (d, bucketGet d b) ∈ b := by
  induction b with
  | nil => simp [bucketGet] at h
  | cons hd rest ih =>
    obtain ⟨k, segs⟩ := hd
    by_cases hk : k = d
    · subst hk
      simp [bucketGet]
    · simp only [bucketGet, if_neg hk] at h ⊢
      exact List.mem_cons_of_mem _ (ih h)

/-! ## Sorting lemmas -/

theorem mem_insertCmp {α : Type} {cmp : α → α → Int} {x a : α} {l : List α} :
    a ∈ insertCmp cmp x l ↔ a = x ∨ a ∈ l := by
  induction l with
  | nil => simp [insertCmp]
  | cons y ys ih =>
    simp only [insertCmp]
    split
    · simp [List.mem_cons]
    · simp only [List.mem_cons, ih]
      tauto

theorem mem_sortCmp_fold {α : Type} {cmp : α → α → Int} {a : α} (l acc : List α) :
    a ∈ l.foldl (fun acc x => insertCmp cmp x acc) acc ↔ a ∈ acc ∨ a ∈ l := by
  induction l generalizing acc with
  | nil => simp
  | cons x rest ih =>
    simp only [List.foldl_cons, ih, mem_insertCmp, List.mem_cons]
    tauto

theorem mem_sortCmp {α : Type} {cmp : α → α → Int} {a : α} {l : List α} :
    a ∈ sortCmp cmp l ↔ a ∈ l := by
  simp [sortCmp, mem_sortCmp_fold]

/-! ## Window-filter lemmas -/

theorem segmentsOfEvent_eq_nil {z now endDate : Int} {ev : NormalizedEvent}
    (h : ev.stop < now ∨ ev.start > endDate) : segmentsOfEvent z now endDate ev = [] := by
  unfold segmentsOfEvent
  rcases h with h | h
  · simp [h]
  · split_ifs <;> simp_all

/-- The unconditional first push of the `events.forEach` body: the segment
keyed to the event's start date, carrying the original start time, and —
for a midnight-crossing event — clipped to end-of-day. -/
def firstSegOf (z : Int) (ev : NormalizedEvent) : DaySegment :=
  let crossDay : Bool := decide (localDay z ev.start ≠ localDay z ev.stop)
  { title := ev.title, start := ev.start,
    stop := if crossDay then endOfDay z ev.start else ev.stop,
    description := ev.description, isFullDay := ev.isAllDay,
    crossDay := crossDay, timezone := z }

theorem segmentsOfEvent_head {z now endDate : Int} {ev : NormalizedEvent}
    (h1 : ¬ev.stop < now) (h2 : ¬ev.start > endDate) :
    ∃ tail, segmentsOfEvent z now endDate ev = (localDay z ev.start, firstSegOf z ev) :: tail := by
  unfold segmentsOfEvent firstSegOf
  simp only [if_neg h1, if_neg h2]
  exact ⟨_, rfl⟩

theorem createGroupedEvents_erase (pre post : List NormalizedEvent) (ev : NormalizedEvent)
    (days z : Int) (url : Str) (now0 : Int)
    (h : segmentsOfEvent z (startOfDay z now0) (startOfDay z now0 + days * 86400) ev = []) :
    createGroupedEvents (pre ++ ev :: post) days z url now0 =
      createGroupedEvents (pre ++ post) days z url now0 := by
  simp only [createGroupedEvents, groupPairs, List.foldl_append, List.foldl_cons, h,
    List.foldl_nil]

/-! ## The continuation loop, in closed form -/

theorem crossLoop_eq (z : Int) (ev : NormalizedEvent) (stop endDate endDayN : Int) :
    ∀ (n fuel : Nat) (d0 : Int),
      (min (localDay z stop) (localDay z (endDate - 1)) + 1 - d0).toNat = n →
      n ≤ fuel →
      crossLoop z ev stop endDate endDayN fuel (dayStart z d0) =
        (intRange d0 n).map (fun d =>
          (d, { title := ev.title, start := dayStart z d,
                stop := if d = endDayN then stop else dayStart z d + 86399,
                description := ev.description, isFullDay := ev.isAllDay,
                crossDay := true, timezone := z })) := by
  intro n
  induction n with
  | zero =>
    intro fuel d0 hn _
    have hgt : min (localDay z stop) (localDay z (endDate - 1)) < d0 := by omega
    have hcond : ¬(dayStart z d0 ≤ stop ∧ dayStart z d0 < endDate) := by
      simp only [localDay, dayStart] at hgt ⊢
      omega
    cases fuel with
    | zero => rfl
    | succ f => simp [crossLoop, hcond, intRange]
  | succ m ih =>
    intro fuel d0 hn hfuel
    have hle : d0 ≤ min (localDay z stop) (localDay z (endDate - 1)) := by omega
    have hcond : dayStart z d0 ≤ stop ∧ dayStart z d0 < endDate := by
      simp only [localDay, dayStart] at hle ⊢
      omega
    cases fuel with
    | zero => omega
    | succ f =>
      simp only [crossLoop, if_pos hcond, intRange_succ, List.map_cons, localDay_dayStart,
        endOfDay, startOfDay_dayStart]
      congr 1
      have hds : dayStart z d0 + 86400 = dayStart z (d0 + 1) := by
        simp only [dayStart]; ring
      rw [hds]
      exact ih f (d0 + 1) (by omega) (by omega)

/-- For an event that passes the window filter and crosses midnight, the
full list of keyed segments in closed form: the first-day segment, then one
segment per further day up to the event's end day, cut off before any day
whose local midnight is at or past `endDate`. -/
theorem segmentsOfEvent_cross_eq (z now endDate : Int) (ev : NormalizedEvent)
    (h1 : ¬ev.stop < now) (h2 : ¬ev.start > endDate)
    (hcross : localDay z ev.start ≠ localDay z ev.stop) :
    segmentsOfEvent z now endDate ev =
      (localDay z ev.start,
        { title := ev.title, start := ev.start, stop := endOfDay z ev.start,
          description := ev.description, isFullDay := ev.isAllDay,
          crossDay := true, timezone := z }) ::
      (intRange (localDay z ev.start + 1)
          ((min (localDay z ev.stop) (localDay z (endDate - 1)) - localDay z ev.start).toNat)).map
        (fun d =>
          (d, { title := ev.title, start := dayStart z d,
                stop := if d = localDay z ev.stop then ev.stop else dayStart z d + 86399,
                description := ev.description, isFullDay := ev.isAllDay,
                crossDay := true, timezone := z })) := by
  have hd : decide (localDay z ev.start ≠ localDay z ev.stop) = true := decide_eq_true hcross
  unfold segmentsOfEvent
  simp only [if_neg h1, if_neg h2, hd, if_true, startOfDay_add_day]
  have hloop := crossLoop_eq z ev ev.stop endDate (localDay z ev.stop)
      ((min (localDay z ev.stop) (localDay z (endDate - 1)) - localDay z ev.start).toNat)
      ((ev.stop + 86400 - dayStart z (localDay z ev.start + 1)).toNat)
      (localDay z ev.start + 1) (by omega) (by simp only [localDay, dayStart]; omega)
  rw [hloop]

/-! ## Order theory for the in-day sort -/

/-- The sort key realised by `segCmp`: full-day rank first, then start instant. -/
def segKey (s : DaySegment) : Int × Int := (if s.isFullDay then 0 else 1, s.start)

/-- Strict lexicographic order on sort keys. -/
def lexLt (p q : Int × Int) : Prop := p.1 < q.1 ∨ (p.1 = q.1 ∧ p.2 < q.2)

/-- `a` sorts no later than `b` under the JS comparator. -/
def SegLe (a b : DaySegment) : Prop := ¬segCmp b a < 0

theorem segCmp_lt_iff (a b : DaySegment) : segCmp a b < 0 ↔ lexLt (segKey a) (segKey b) := by
  simp only [segCmp, segKey, lexLt]
  cases ha : a.isFullDay <;> cases hb : b.isFullDay <;>
    by_cases hs : a.start < b.start <;> simp [hs]

theorem segLe_of_lt {a b : DaySegment} (h : segCmp a b < 0) : SegLe a b := by
  simp only [SegLe, segCmp_lt_iff] at *
  unfold lexLt at *
  omega

theorem segLe_trans {a b c : DaySegment} (h1 : SegLe a b) (h2 : SegLe b c) : SegLe a c := by
  simp only [SegLe, segCmp_lt_iff] at *
  unfold lexLt at *
  omega

theorem pairwise_insertCmp_seg (x : DaySegment) (l : List DaySegment)
    (hl : l.Pairwise SegLe) : (insertCmp segCmp x l).Pairwise SegLe := by
  induction l with
  | nil => simp [insertCmp]
  | cons y ys ih =>
    rcases List.pairwise_cons.mp hl with ⟨hy, hys⟩
    simp only [insertCmp]
    split
    case isTrue h =>
      refine List.Pairwise.cons (fun b hb => ?_) hl
      rcases List.mem_cons.mp hb with rfl | hb
      · exact segLe_of_lt h
      · exact segLe_trans (segLe_of_lt h) (hy b hb)
    case isFalse h =>
      refine List.Pairwise.cons (fun b hb => ?_) (ih hys)
      rcases mem_insertCmp.mp hb with rfl | hb
      · exact h
      · exact hy b hb

theorem pairwise_sortCmp_fold (l : List DaySegment) :
    ∀ acc : List DaySegment, acc.Pairwise SegLe →
      (l.foldl (fun a x => insertCmp segCmp x a) acc).Pairwise SegLe := by
  induction l with
  | nil => intro acc hacc; simpa using hacc
  | cons x rest ih =>
    intro acc hacc
    simpa using ih _ (pairwise_insertCmp_seg x acc hacc)

theorem pairwise_sortCmp_seg (l : List DaySegment) : (sortCmp segCmp l).Pairwise SegLe :=
  pairwise_sortCmp_fold l [] (by simp)

theorem insertCmp_split {α : Type} (cmp : α → α → Int) (x : α) (l : List α) :
    ∃ l1 l2, l = l1 ++ l2 ∧ insertCmp cmp x l = l1 ++ x :: l2 ∧
      (∀ y ∈ l1, ¬cmp x y < 0) ∧ (l2 = [] ∨ ∃ y0 t, l2 = y0 :: t ∧ cmp x y0 < 0) := by
  induction l with
  | nil => exact ⟨[], [], rfl, rfl, by simp, Or.inl rfl⟩
  | cons y ys ih =>
    by_cases h : cmp x y < 0
    · exact ⟨[], y :: ys, rfl, by simp [insertCmp, h], by simp, Or.inr ⟨y, ys, rfl, h⟩⟩
    · obtain ⟨l1, l2, he, hi, hall, hend⟩ := ih
      refine ⟨y :: l1, l2, by simp [he], by simp [insertCmp, h, hi], fun w hw => ?_, hend⟩
      rcases List.mem_cons.mp hw with rfl | hw
      · exact h
      · exact hall w hw

theorem filter_insertCmp_seg (x : DaySegment) (l : List DaySegment) (hl : l.Pairwise SegLe)
    (k : Int × Int) :
    (insertCmp segCmp x l).filter (fun s => decide (segKey s = k)) =
      if segKey x = k then l.filter (fun s => decide (segKey s = k)) ++ [x]
      else l.filter (fun s => decide (segKey s = k)) := by
  obtain ⟨l1, l2, he, hi, hall, hend⟩ := insertCmp_split segCmp x l
  subst he
  rw [hi, List.filter_append, List.filter_append, List.filter_cons]
  by_cases hk : segKey x = k
  · have hl2 : l2.filter (fun s => decide (segKey s = k)) = [] := by
      rcases hend with rfl | ⟨y0, t, rfl, hy0⟩
      · rfl
      · rw [List.filter_eq_nil_iff]
        intro w hw
        have hxy0 : lexLt (segKey x) (segKey y0) := (segCmp_lt_iff x y0).mp hy0
        have hwk : segKey w ≠ k := by
          rw [← hk]
          have hl2' : (y0 :: t).Pairwise SegLe := (List.pairwise_append.mp hl).2.1
          rcases List.mem_cons.mp hw with rfl | hwt
          · intro hEq
            have h1 := congrArg Prod.fst hEq
            have h2 := congrArg Prod.snd hEq
            simp only at h1 h2
            unfold lexLt at hxy0
            omega
          · have hle : SegLe y0 w := (List.pairwise_cons.mp hl2').1 w hwt
            have hle' : ¬lexLt (segKey w) (segKey y0) := by
              simpa only [SegLe, segCmp_lt_iff] using hle
            intro hEq
            have h1 := congrArg Prod.fst hEq
            have h2 := congrArg Prod.snd hEq
            simp only at h1 h2
            unfold lexLt at hxy0 hle'
            omega
        simpa using hwk
    simp [hk, hl2]
  · have : (decide (segKey x = k)) = false := decide_eq_false hk
    simp [this, hk]

theorem filter_sortCmp_fold (l : List DaySegment) :
    ∀ acc : List DaySegment, acc.Pairwise SegLe → ∀ k : Int × Int,
      ((l.foldl (fun a x => insertCmp segCmp x a) acc).filter (fun s => decide (segKey s = k))) =
        acc.filter (fun s => decide (segKey s = k)) ++
          l.filter (fun s => decide (segKey s = k)) := by
  induction l with
  | nil => intro acc _ k; simp
  | cons x rest ih =>
    intro acc hacc k
    simp only [List.foldl_cons, List.filter_cons]
    rw [ih _ (pairwise_insertCmp_seg x acc hacc) k, filter_insertCmp_seg x acc hacc k]
    by_cases hk : segKey x = k
    · simp [hk]
    · have : (decide (segKey x = k)) = false := decide_eq_false hk
      simp [hk, this]

/-- Stability of the in-day sort: segments with any fixed sort key keep
their relative (encounter) order. -/
theorem filter_sortCmp_seg (l : List DaySegment) (k : Int × Int) :
    (sortCmp segCmp l).filter (fun s => decide (segKey s = k)) =
      l.filter (fun s => decide (segKey s = k)) := by
  simpa using filter_sortCmp_fold l [] (by simp) k

/-- The per-bucket ordering stated as the spec states it: no timed segment
ahead of a full-day one, and equal-class segments in non-decreasing start
order. -/
def segOrdered (a b : DaySegment) : Prop :=
  (b.isFullDay = true → a.isFullDay = true) ∧ (a.isFullDay = b.isFullDay → a.start ≤ b.start)

theorem segLe_imp_ordered {a b : DaySegment} (h : SegLe a b) : segOrdered a b := by
  simp only [SegLe, segCmp_lt_iff] at h
  unfold lexLt segKey at h
  unfold segOrdered
  cases ha : a.isFullDay <;> cases hb : b.isFullDay <;> simp_all

theorem agenda_eq (events : List NormalizedEvent) (days z : Int) (url : Str) (now0 : Int) :
    (createGroupedEvents events days z url now0).agenda =
      (sortCmp (fun a b => if a.1 < b.1 then (-1 : Int) else 1)
          ((groupPairs events z (startOfDay z now0) (startOfDay z now0 + days * 86400)).map
            (fun p => (p.1, sortCmp segCmp p.2)))).map
        (fun p => AgendaDay.mk p.1 p.2) := rfl

/-- Membership in the final agenda, reduced to the raw bucket list. -/
theorem mem_agenda_iff {events : List NormalizedEvent} {days z : Int} {url : Str} {now0 : Int}
    {day : AgendaDay} :
    day ∈ (createGroupedEvents events days z url now0).agenda ↔
      ∃ p ∈ groupPairs events z (startOfDay z now0) (startOfDay z now0 + days * 86400),
        day = ⟨p.1, sortCmp segCmp p.2⟩ := by
  rw [agenda_eq]
  constructor
  · intro h
    rcases List.mem_map.mp h with ⟨p', hp', rfl⟩
    rcases List.mem_map.mp (mem_sortCmp.mp hp') with ⟨q, hq, rfl⟩
    exact ⟨q, hq, rfl⟩
  · rintro ⟨q, hq, rfl⟩
    exact List.mem_map.mpr
      ⟨(q.1, sortCmp segCmp q.2), mem_sortCmp.mpr (List.mem_map.mpr ⟨q, hq, rfl⟩), rfl⟩

/-! ## Unique bucket keys -/

theorem keys_pushSeg (key : Int) (seg : DaySegment) (b : List (Int × List DaySegment)) :
    (pushSeg key seg b).map Prod.fst =
      if key ∈ b.map Prod.fst then b.map Prod.fst else b.map Prod.fst ++ [key] := by
  induction b with
  | nil => simp [pushSeg]
  | cons hd rest ih =>
    obtain ⟨k, segs⟩ := hd
    simp only [pushSeg]
    by_cases hk : k = key
    · subst hk; simp
    · have hk' : ¬key = k := fun h => hk h.symm
      simp only [if_neg hk, List.map_cons, ih]
      by_cases hmem : key ∈ rest.map Prod.fst <;> simp_all

theorem nodup_keys_pushSeg (key : Int) (seg : DaySegment) (b : List (Int × List DaySegment))
    (h : (b.map Prod.fst).Nodup) : ((pushSeg key seg b).map Prod.fst).Nodup := by
  rw [keys_pushSeg]
  split
  · exact h
  · next hmem => simp [List.nodup_append, h, hmem]

theorem nodup_keys_pushList (segs : List (Int × DaySegment)) :
    ∀ acc : List (Int × List DaySegment), (acc.map Prod.fst).Nodup →
      (((segs.foldl (fun a p => pushSeg p.1 p.2 a) acc)).map Prod.fst).Nodup := by
  induction segs with
  | nil => intro acc h; simpa using h
  | cons p rest ih => intro acc h; simpa using ih _ (nodup_keys_pushSeg p.1 p.2 acc h)

theorem nodup_keys_groupPairs (events : List NormalizedEvent) (z now endDate : Int) :
    ((groupPairs events z now endDate).map Prod.fst).Nodup := by
  suffices h : ∀ acc : List (Int × List DaySegment), (acc.map Prod.fst).Nodup →
      ((events.foldl
          (fun acc ev =>
            (segmentsOfEvent z now endDate ev).foldl (fun a p => pushSeg p.1 p.2 a) acc)
          acc).map Prod.fst).Nodup by
    exact h [] (by simp)
  induction events with
  | nil => intro acc hacc; simpa using hacc
  | cons ev rest ih =>
    intro acc hacc
    simpa using ih _ (nodup_keys_pushList _ acc hacc)

theorem bucketGet_of_mem_nodup {b : List (Int × List DaySegment)}
    (hnodup : (b.map Prod.fst).Nodup) {k : Int} {l : List DaySegment} (hmem : (k, l) ∈ b) :
    bucketGet k b = l := by
  induction b with
  | nil => cases hmem
  | cons hd rest ih =>
    obtain ⟨k', l'⟩ := hd
    rcases List.mem_cons.mp hmem with heq | hmem'
    · obtain ⟨rfl, rfl⟩ := Prod.mk.injEq .. ▸ And.intro (congrArg Prod.fst heq)
        (congrArg Prod.snd heq)
      simp [bucketGet]
    · have hk : ¬k' = k := by
        intro h
        subst h
        exact (List.nodup_cons.mp hnodup).1
          (List.mem_map.mpr ⟨(k', l), hmem', rfl⟩)
      simp only [bucketGet, if_neg hk]
      exact ih (List.nodup_cons.mp hnodup).2 hmem'

theorem mem_bucketGet_of_event (z now endDate : Int) (ev : NormalizedEvent) (d : Int)
    (seg : DaySegment) (events : List NormalizedEvent) (hmem : ev ∈ events)
    (h : (d, seg) ∈ segmentsOfEvent z now endDate ev) :
    seg ∈ bucketGet d (groupPairs events z now endDate) := by
  rw [bucketGet_groupPairs]
  induction events with
  | nil => cases hmem
  | cons e rest ih =>
    simp only [List.map_cons, List.foldr_cons, List.mem_append]
    rcases List.mem_cons.mp hmem with heq | hmem'
    · subst heq
      exact Or.inl (List.mem_filterMap.mpr ⟨(d, seg), h, by simp⟩)
    · exact Or.inr (ih hmem')

/-- An event passing the window filter always contributes its first segment
to the output agenda, in the bucket of its start date. -/
theorem kept_event_in_agenda (events : List NormalizedEvent) (days z : Int) (url : Str)
    (now0 : Int) (ev : NormalizedEvent) (hmem : ev ∈ events)
    (h1 : ¬ev.stop < startOfDay z now0)
    (h2 : ¬ev.start > startOfDay z now0 + days * 86400) :
    ∃ day ∈ (createGroupedEvents events days z url now0).agenda,
      day.date = localDay z ev.start ∧ firstSegOf z ev ∈ day.events := by
  obtain ⟨tail, hseg⟩ := segmentsOfEvent_head (z := z) h1 h2
  have hmemB : firstSegOf z ev ∈
      bucketGet (localDay z ev.start)
        (groupPairs events z (startOfDay z now0) (startOfDay z now0 + days * 86400)) :=
    mem_bucketGet_of_event _ _ _ ev _ _ events hmem (by rw [hseg]; exact List.mem_cons_self _ _)
  have hne : bucketGet (localDay z ev.start)
      (groupPairs events z (startOfDay z now0) (startOfDay z now0 + days * 86400)) ≠ [] := by
    intro h0
    rw [h0] at hmemB
    cases hmemB
  refine ⟨⟨localDay z ev.start, sortCmp segCmp (bucketGet (localDay z ev.start)
      (groupPairs events z (startOfDay z now0) (startOfDay z now0 + days * 86400)))⟩,
    mem_agenda_iff.mpr ⟨(localDay z ev.start, bucketGet (localDay z ev.start)
      (groupPairs events z (startOfDay z now0) (startOfDay z now0 + days * 86400))),
      mem_of_bucketGet_ne_nil hne, rfl⟩, rfl, ?_⟩
  exact mem_sortCmp.mpr hmemB

/-! ## Claims C1, C2, C3, C10 -/

/-- Claim C1, original wording, is false at the window boundary: with
`windowStart = 0`, `days = 7` (so `windowEnd = 604800`), the event
`start = 604800`, `end = 694800` passes the window filter (the start-after
check is strict), crosses midnight, and the engine emits its first-day
segment keyed to day 7 — a day whose start-of-day instant equals
`windowEnd` — contradicting "no segment emitted for a day whose
start-of-day instant is >= windowEnd". -/
theorem claim_C1_cex :
    (¬(694800 : Int) < startOfDay 0 0) ∧ ¬(604800 : Int) > startOfDay 0 0 + 7 * 86400 ∧
    localDay 0 604800 ≠ localDay 0 694800 ∧
    dayStart 0 (localDay 0 604800) ≥ startOfDay 0 0 + 7 * 86400 ∧
    segmentsOfEvent 0 (startOfDay 0 0) (startOfDay 0 0 + 7 * 86400)
        ⟨"CX1".toList, 604800, 694800, [], false⟩ =
      [(7, ⟨"CX1".toList, 604800, 691199, [], false, true, 0⟩)] := by decide

/-- Claim C1 (amended): for every normalized event that passes the window
filter and whose start and end fall on different calendar dates in the
target zone, the engine emits exactly one DaySegment per calendar day from
the start date through the end date — the first day keeping the original
start time and ending at 23:59:59 local, middle days spanning start-of-day
to end-of-day, the last day starting at start-of-day and keeping the
original end time, all with `crossDay = true` — except that the
continuation days (second day onward) are cut off before any day whose
start-of-day instant is `>= windowEnd`; the first-day segment is emitted
unconditionally once the filter passes (even in the boundary case
`start = windowEnd`, the only way its day can reach the horizon). -/
theorem claim_C1_multiday_segmentation (days z now0 : Int) (ev : NormalizedEvent)
    (h1 : ¬ev.stop < startOfDay z now0)
    (h2 : ¬ev.start > startOfDay z now0 + days * 86400)
    (hcross : localDay z ev.start ≠ localDay z ev.stop) :
    segmentsOfEvent z (startOfDay z now0) (startOfDay z now0 + days * 86400) ev =
      (localDay z ev.start,
        { title := ev.title, start := ev.start, stop := endOfDay z ev.start,
          description := ev.description, isFullDay := ev.isAllDay,
          crossDay := true, timezone := z }) ::
      (intRange (localDay z ev.start + 1)
          ((min (localDay z ev.stop)
              (localDay z (startOfDay z now0 + days * 86400 - 1)) -
            localDay z ev.start).toNat)).map
        (fun d =>
          (d, { title := ev.title, start := dayStart z d,
                stop := if d = localDay z ev.stop then ev.stop else dayStart z d + 86399,
                description := ev.description, isFullDay := ev.isAllDay,
                crossDay := true, timezone := z })) :=
  segmentsOfEvent_cross_eq z (startOfDay z now0) (startOfDay z now0 + days * 86400) ev
    h1 h2 hcross

/-- Witness for `claim_C1_multiday_segmentation`: the spec's Scenario B
shape (a three-calendar-day event, 09:00 on day 2 through 17:00 on day 4,
zone UTC, wide window) produces exactly three segments: day 2 ending
23:59:59, day 3 spanning 00:00:00–23:59:59, day 4 ending at the original
end, all `crossDay = true`. -/
theorem claim_C1_multiday_segmentation_witness :
    segmentsOfEvent 0 (startOfDay 0 0) (startOfDay 0 0 + 30 * 86400)
        ⟨"M".toList, 205200, 406800, [], false⟩ =
      [(2, ⟨"M".toList, 205200, 259199, [], false, true, 0⟩),
       (3, ⟨"M".toList, 259200, 345599, [], false, true, 0⟩),
       (4, ⟨"M".toList, 345600, 406800, [], false, true, 0⟩)] :=
  (claim_C1_multiday_segmentation 30 0 0 ⟨"M".toList, 205200, 406800, [], false⟩
    (by decide) (by decide) (by decide)).trans (by decide)

/-- Claim C2, original wording, is false at the window boundary: with
`windowStart = 0` and `days = 7`, the event whose zone-converted start
equals `windowEnd`'s midnight (604800) exactly is NOT excluded — its
segment appears in the output agenda, keyed to `windowEnd`'s date. -/
theorem claim_C2_cex :
    ((604800 : Int) = startOfDay 0 0 + 7 * 86400) ∧
    (createGroupedEvents [⟨"CX2".toList, 604800, 604800, [], false⟩] 7 0 "u".toList 0).agenda =
      [⟨7, [⟨"CX2".toList, 604800, 604800, [], false, false, 0⟩]⟩] := by decide

/-- Claim C2 (amended): with `windowStart = startOfDay(now0)` and
`windowEnd = windowStart + days`, an event whose zone-converted end is
before `windowStart` or whose zone-converted start is after `windowEnd` is
discarded entirely — removing it from the input leaves the output
unchanged, so no DaySegment of it appears; conversely both checks are
strict, so an event with `end >= windowStart` and `start <= windowEnd`
(including a start exactly at `windowEnd`'s midnight) contributes its
first segment, keyed to its start date, to the output agenda. -/
theorem claim_C2_window_filter (days z now0 : Int) (url : Str)
    (pre post : List NormalizedEvent) (ev : NormalizedEvent) :
    (ev.stop < startOfDay z now0 ∨ ev.start > startOfDay z now0 + days * 86400 →
      createGroupedEvents (pre ++ ev :: post) days z url now0 =
        createGroupedEvents (pre ++ post) days z url now0) ∧
    (¬ev.stop < startOfDay z now0 → ¬ev.start > startOfDay z now0 + days * 86400 →
      ∃ day ∈ (createGroupedEvents (pre ++ ev :: post) days z url now0).agenda,
        day.date = localDay z ev.start ∧ firstSegOf z ev ∈ day.events) := by
  constructor
  · intro h
    exact createGroupedEvents_erase pre post ev days z url now0 (segmentsOfEvent_eq_nil h)
  · intro h1 h2
    exact kept_event_in_agenda (pre ++ ev :: post) days z url now0 ev (by simp) h1 h2

/-- Witness for `claim_C2_window_filter`: an event ending before the
window start is dropped without trace, and an in-window event's first
segment shows up in its start-date bucket. -/
theorem claim_C2_window_filter_witness :
    (createGroupedEvents
        [⟨"W2a".toList, -100, -50, [], false⟩, ⟨"W2b".toList, 100, 200, [], false⟩]
        7 0 "u".toList 0 =
      createGroupedEvents [⟨"W2b".toList, 100, 200, [], false⟩] 7 0 "u".toList 0) ∧
    (∃ day ∈ (createGroupedEvents [⟨"W2b".toList, 100, 200, [], false⟩] 7 0 "u".toList 0).agenda,
      day.date = localDay 0 100 ∧
      firstSegOf 0 ⟨"W2b".toList, 100, 200, [], false⟩ ∈ day.events) :=
  ⟨(claim_C2_window_filter 7 0 0 "u".toList [] [⟨"W2b".toList, 100, 200, [], false⟩]
      ⟨"W2a".toList, -100, -50, [], false⟩).1 (Or.inl (by decide)),
   (claim_C2_window_filter 7 0 0 "u".toList [] []
      ⟨"W2b".toList, 100, 200, [], false⟩).2 (by decide) (by decide)⟩

/-- Claim C3, original wording, is false: full-day segments do NOT keep
their encounter order — the comparator also orders them by start instant.
In zone UTC-02:00 the single-date all-day event "CA" (pushed first into
the day-2 bucket, start instant 259200) and the continuation segment of
the spanning all-day event "CB" (pushed second, start instant 180000) are
both `isFullDay`, enter the bucket in the order [CA, CB], and leave the
sort in the order [CB, CA]. -/
theorem claim_C3_cex :
    bucketGet 2 (groupPairs
        [⟨"CA".toList, 259200, 259200, [], true⟩, ⟨"CB".toList, 86400, 259200, [], true⟩]
        (-7200) (startOfDay (-7200) 0) (startOfDay (-7200) 0 + 30 * 86400)) =
      [⟨"CA".toList, 259200, 259200, [], true, false, -7200⟩,
       ⟨"CB".toList, 180000, 259200, [], true, true, -7200⟩] ∧
    (createGroupedEvents
        [⟨"CA".toList, 259200, 259200, [], true⟩, ⟨"CB".toList, 86400, 259200, [], true⟩]
        30 (-7200) "u".toList 0).agenda =
      [⟨0, [⟨"CB".toList, 86400, 93599, [], true, true, -7200⟩]⟩,
       ⟨1, [⟨"CB".toList, 93600, 179999, [], true, true, -7200⟩]⟩,
       ⟨2, [⟨"CB".toList, 180000, 259200, [], true, true, -7200⟩,
            ⟨"CA".toList, 259200, 259200, [], true, false, -7200⟩]⟩] ∧
    (⟨"CA".toList, 259200, 259200, [], true, false, -7200⟩ : DaySegment).isFullDay = true ∧
    (⟨"CB".toList, 180000, 259200, [], true, true, -7200⟩ : DaySegment).isFullDay = true := by
  decide

/-- Claim C3 (amended): in every per-day bucket of the output agenda, all
`isFullDay = true` segments precede all `isFullDay = false` segments, and
segments of equal class are in non-decreasing order of start instant —
including the full-day ones, which are sorted by start rather than kept in
encounter order; segments with equal class AND equal start instant retain
their encounter order (the order in which they were pushed into the
bucket, `bucketGet day.date (groupPairs ...)`). -/
theorem claim_C3_bucket_sort (events : List NormalizedEvent) (days z : Int) (url : Str)
    (now0 : Int) (day : AgendaDay)
    (hday : day ∈ (createGroupedEvents events days z url now0).agenda) :
    day.events.Pairwise segOrdered ∧
    ∀ k : Int × Int,
      day.events.filter (fun s => decide (segKey s = k)) =
        (bucketGet day.date
            (groupPairs events z (startOfDay z now0) (startOfDay z now0 + days * 86400))).filter
          (fun s => decide (segKey s = k)) := by
  rcases mem_agenda_iff.mp hday with ⟨p, hp, rfl⟩
  have hbg : bucketGet p.1
      (groupPairs events z (startOfDay z now0) (startOfDay z now0 + days * 86400)) = p.2 :=
    bucketGet_of_mem_nodup (nodup_keys_groupPairs events z _ _) (by exact hp)
  refine ⟨(pairwise_sortCmp_seg p.2).imp (fun h => segLe_imp_ordered h), fun k => ?_⟩
  show (sortCmp segCmp p.2).filter _ = _
  rw [filter_sortCmp_seg, hbg]

/-- Witness for `claim_C3_bucket_sort` on a concrete agenda day holding an
all-day segment and two timed ones. -/
theorem claim_C3_bucket_sort_witness :
    (AgendaDay.mk 0 [⟨"W3a".toList, 0, 0, [], true, false, 0⟩,
        ⟨"W3b".toList, 100, 200, [], false, false, 0⟩,
        ⟨"W3c".toList, 300, 400, [], false, false, 0⟩]).events.Pairwise segOrdered ∧
    (AgendaDay.mk 0 [⟨"W3a".toList, 0, 0, [], true, false, 0⟩,
        ⟨"W3b".toList, 100, 200, [], false, false, 0⟩,
        ⟨"W3c".toList, 300, 400, [], false, false, 0⟩]).events.filter
        (fun s => decide (segKey s = (1, 100))) =
      (bucketGet 0 (groupPairs
          [⟨"W3c".toList, 300, 400, [], false⟩, ⟨"W3b".toList, 100, 200, [], false⟩,
           ⟨"W3a".toList, 0, 0, [], true⟩] 0 (startOfDay 0 0)
          (startOfDay 0 0 + 7 * 86400))).filter (fun s => decide (segKey s = (1, 100))) := by
  have h := claim_C3_bucket_sort
    [⟨"W3c".toList, 300, 400, [], false⟩, ⟨"W3b".toList, 100, 200, [], false⟩,
     ⟨"W3a".toList, 0, 0, [], true⟩] 7 0 "u".toList 0
    (AgendaDay.mk 0 [⟨"W3a".toList, 0, 0, [], true, false, 0⟩,
      ⟨"W3b".toList, 100, 200, [], false, false, 0⟩,
      ⟨"W3c".toList, 300, 400, [], false, false, 0⟩]) (by decide)
  exact ⟨h.1, h.2 (1, 100)⟩

/-- Claim C10: an event whose zone-converted end is not before
`windowStart` but whose zone-converted start falls on a calendar date
earlier than `windowStart`'s date is keyed to its true start date: the
output agenda gains a bucket dated before `windowStart`'s date holding the
event's first segment with its original (unclipped) start.  (`days` is
nonnegative, per the spec's precondition of a positive horizon.) -/
theorem claim_C10_early_bucket (events : List NormalizedEvent) (days z : Int) (url : Str)
    (now0 : Int) (ev : NormalizedEvent) (hmem : ev ∈ events) (hdays : 0 ≤ days)
    (hend : ¬ev.stop < startOfDay z now0)
    (hstart : localDay z ev.start < localDay z now0) :
    ∃ day ∈ (createGroupedEvents events days z url now0).agenda,
      day.date = localDay z ev.start ∧ day.date < localDay z now0 ∧
      firstSegOf z ev ∈ day.events := by
  have h2 : ¬ev.start > startOfDay z now0 + days * 86400 := by
    simp only [localDay, startOfDay] at hstart ⊢
    have : 0 ≤ days * 86400 := by positivity
    omega
  obtain ⟨day, hmem', hdate, hseg⟩ := kept_event_in_agenda events days z url now0 ev hmem hend h2
  exact ⟨day, hmem', hdate, by rw [hdate]; exact hstart, hseg⟩

/-- Witness for `claim_C10_early_bucket`: reference instant 90000 (day 1,
01:00 UTC); the event 50000–100000 starts on day 0, before the window
start, and the agenda contains a day-0 bucket with its first segment. -/
theorem claim_C10_early_bucket_witness :
    ∃ day ∈ (createGroupedEvents [⟨"W10".toList, 50000, 100000, [], false⟩]
        7 0 "u".toList 90000).agenda,
      day.date = localDay 0 50000 ∧ day.date < localDay 0 90000 ∧
      firstSegOf 0 ⟨"W10".toList, 50000, 100000, [], false⟩ ∈ day.events :=
  claim_C10_early_bucket [⟨"W10".toList, 50000, 100000, [], false⟩] 7 0 "u".toList 90000
    ⟨"W10".toList, 50000, 100000, [], false⟩ (by decide) (by decide) (by decide) (by decide)

/-! ## Claim C6: date-resolver fallbacks -/

theorem removeFirstZ_of_not_mem {t : Str} (h : 'Z' ∉ t) : removeFirstZ t = t := by
  induction t with
  | nil => rfl
  | cons c cs ih =>
    have hc : c ≠ 'Z' := fun hc => h (hc ▸ List.mem_cons_self c cs)
    simp only [removeFirstZ, if_neg hc]
    rw [ih (fun hm => h (List.mem_cons_of_mem c hm))]

theorem removeFirstZ_append_Z {t : Str} (h : 'Z' ∉ t) : removeFirstZ (t ++ ['Z']) = t := by
  induction t with
  | nil => rfl
  | cons c cs ih =>
    have hc : c ≠ 'Z' := fun hc => h (hc ▸ List.mem_cons_self c cs)
    have hstep : removeFirstZ (c :: (cs ++ ['Z'])) = c :: removeFirstZ (cs ++ ['Z']) := by
      simp only [removeFirstZ, if_neg hc]
    rw [List.cons_append, hstep, ih (fun hm => h (List.mem_cons_of_mem c hm))]

theorem not_Z_mem_of_allDigits {s : Str} (h : allDigits s = true) : 'Z' ∉ s := by
  intro hmem
  have := (List.all_eq_true.mp h) 'Z' hmem
  exact absurd this (by decide)

/-- Claim C6, original wording, is false: the code removes the FIRST
literal `Z` anywhere in the value (JS `replace('Z','')`), not a trailing
one.  The value "Z19700102" has no trailing `Z` and matches neither the
all-day nor the timed pattern, so on the claim's reading the resolver
should return the current instant (5); the code instead strips the leading
`Z` and parses a real date, 86400 (1970-01-02T00:00:00Z). -/
theorem claim_C6_cex :
    parseICSDate (some "Z19700102".toList) false 5 = 86400 ∧
    (86400 : Int) ≠ 5 ∧
    matchAllDay "Z19700102".toList = none ∧
    matchTimed "Z19700102".toList = none := by decide

/-- Claim C6 (amended): for every raw date/time value passed to
`parseICSDate`: an absent value yields the current instant; the FIRST
literal `Z` anywhere in the value is removed before pattern matching (for
a well-formed value whose only `Z` is trailing, this strips exactly the
trailing `Z`); a timed value `YYYYMMDD` — with the `T` separator and each
of the hour/minute/second pairs independently optional — has the missing
components defaulting to 00; and a value that, after the `Z` removal,
matches neither the all-day nor the timed pattern yields the current
instant rather than an error. -/
theorem claim_C6_date_fallbacks :
    (∀ (b : Bool) (n : Int), parseICSDate none b n = n) ∧
    (∀ (t : Str) (b : Bool) (n : Int), 'Z' ∉ t →
      parseICSDate (some (t ++ ['Z'])) b n = parseICSDate (some t) b n) ∧
    (∀ (a b c d e f g h : Char) (n : Int), allDigits [a, b, c, d, e, f, g, h] = true →
      parseICSDate (some [a, b, c, d, e, f, g, h]) false n =
        utcInstant (digitsVal [a, b, c, d]) (digitsVal [e, f]) (digitsVal [g, h]) 0 0 0) ∧
    (∀ (a b c d e f g h p q : Char) (n : Int), allDigits [a, b, c, d, e, f, g, h] = true →
      allDigits [p, q] = true →
      parseICSDate (some [a, b, c, d, e, f, g, h, 'T', p, q]) false n =
        utcInstant (digitsVal [a, b, c, d]) (digitsVal [e, f]) (digitsVal [g, h])
          (digitsVal [p, q]) 0 0) ∧
    (∀ (s : Str) (b : Bool) (n : Int), matchAllDay (removeFirstZ s) = none →
      matchTimed (removeFirstZ s) = none → parseICSDate (some s) b n = n) := by
  refine ⟨fun b n => rfl, ?_, ?_, ?_, ?_⟩
  · intro t b n hz
    cases t with
    | nil => cases b <;> rfl
    | cons c cs =>
      have h1 : removeFirstZ (c :: (cs ++ ['Z'])) = c :: cs := by
        rw [← List.cons_append]
        exact removeFirstZ_append_Z hz
      have h2 : removeFirstZ (c :: cs) = c :: cs := removeFirstZ_of_not_mem hz
      simp [parseICSDate, List.cons_append, h1, h2]
  · intro a b c d e f g h n hall
    have hz : removeFirstZ [a, b, c, d, e, f, g, h] = [a, b, c, d, e, f, g, h] :=
      removeFirstZ_of_not_mem (not_Z_mem_of_allDigits hall)
    simp [parseICSDate, hz, matchTimed, matchHMS, hall]
  · intro a b c d e f g h p q n hall hpq
    have hzmem : 'Z' ∉ ([a, b, c, d, e, f, g, h, 'T', p, q] : Str) := by
      have hd8 := List.all_eq_true.mp hall
      have hd2 := List.all_eq_true.mp hpq
      intro hmem
      simp only [List.mem_cons, List.not_mem_nil, or_false] at hmem
      rcases hmem with rfl | rfl | rfl | rfl | rfl | rfl | rfl | rfl | heq | rfl | rfl
      · exact absurd (hd8 'Z' (by simp)) (by decide)
      · exact absurd (hd8 'Z' (by simp)) (by decide)
      · exact absurd (hd8 'Z' (by simp)) (by decide)
      · exact absurd (hd8 'Z' (by simp)) (by decide)
      · exact absurd (hd8 'Z' (by simp)) (by decide)
      · exact absurd (hd8 'Z' (by simp)) (by decide)
      · exact absurd (hd8 'Z' (by simp)) (by decide)
      · exact absurd (hd8 'Z' (by simp)) (by decide)
      · exact absurd heq (by decide)
      · exact absurd (hd2 'Z' (by simp)) (by decide)
      · exact absurd (hd2 'Z' (by simp)) (by decide)
    have hz : removeFirstZ [a, b, c, d, e, f, g, h, 'T', p, q] =
        [a, b, c, d, e, f, g, h, 'T', p, q] := removeFirstZ_of_not_mem hzmem
    simp [parseICSDate, hz, matchTimed, matchHMS, hall, hpq]
  · intro s b n h1 h2
    cases s with
    | nil => cases b <;> rfl
    | cons c cs =>
      simp only [parseICSDate, List.isEmpty_cons, Bool.false_eq_true, if_false, h1, h2]
      cases b <;> simp

/-- Witness for `claim_C6_date_fallbacks` at concrete values: the absent
value, a trailing-`Z` timestamp, the date-only default, the hour-only
default, and an unparsable value. -/
theorem claim_C6_date_fallbacks_witness :
    parseICSDate none false 77 = 77 ∧
    parseICSDate (some "19700103T120000Z".toList) false 77 =
      parseICSDate (some "19700103T120000".toList) false 77 ∧
    parseICSDate (some "19700103".toList) false 77 =
      utcInstant (digitsVal "1970".toList) (digitsVal "01".toList) (digitsVal "03".toList)
        0 0 0 ∧
    parseICSDate (some "19700103T12".toList) false 77 =
      utcInstant (digitsVal "1970".toList) (digitsVal "01".toList) (digitsVal "03".toList)
        (digitsVal "12".toList) 0 0 ∧
    parseICSDate (some "not-a-date".toList) true 77 = 77 := by
  have h := claim_C6_date_fallbacks
  exact ⟨h.1 false 77,
    h.2.1 "19700103T120000".toList false 77 (by decide),
    h.2.2.1 '1' '9' '7' '0' '0' '1' '0' '3' 77 (by decide),
    h.2.2.2.1 '1' '9' '7' '0' '0' '1' '0' '3' '1' '2' 77 (by decide) (by decide),
    h.2.2.2.2 "not-a-date".toList true 77 (by decide) (by decide)⟩

/-! ## Claim C4: line unfolding (spec-modelled) -/

/-- Modelled from the spec: the Line Unfolder (§4.1) belongs to the richer
of the repository's two source versions and is absent from the checked-in
src/index.js (whose `parseICS` consumes physical lines directly).  A line
"beginning with a single space or horizontal tab" is a continuation. -/
def isContLine (l : Str) : Bool :=
  match l with
  | [] => false
  | ch :: _ => ch = ' ' || ch = '\t'

/-- Modelled from the spec (§4.1): the unfolding loop.  The state is the
logical line being accumulated; a continuation line has exactly its first
character stripped and the remainder appended; a completed logical line is
forwarded when a non-continuation line or end-of-input is reached (so a
trailing continuation is still flushed); a continuation with no prior line
is dropped. -/
def unfoldAux : Option Str → List Str → List Str
  | cur, [] =>
    (match cur with
     | some l => [l]
     | none => [])
  | cur, line :: rest =>
    if isContLine line then
      match cur with
      | some l => unfoldAux (some (l ++ line.drop 1)) rest
      | none => unfoldAux none rest
    else
      match cur with
      | some l => l :: unfoldAux (some line) rest
      | none => unfoldAux (some line) rest

/-- Modelled from the spec (§4.1): physical lines to logical lines. -/
def unfoldLines (physical : List Str) : List Str := unfoldAux none physical

/-- Claim C4 (spec-modelled): a physical line beginning with a single
space or horizontal tab is a continuation of the immediately preceding
logical line — its first character is stripped and the remainder appended
to the accumulated content; a trailing continuation at end-of-input is
still flushed (the accumulated line is emitted at `[]`); and a
continuation with no prior line is dropped without error. -/
theorem claim_C4_unfolding :
    (∀ (l s : Str) (c : Char) (rest : List Str), c = ' ' ∨ c = '\t' →
      unfoldAux (some l) ((c :: s) :: rest) = unfoldAux (some (l ++ s)) rest) ∧
    (∀ l : Str, unfoldAux (some l) [] = [l]) ∧
    (∀ (s : Str) (c : Char) (rest : List Str), c = ' ' ∨ c = '\t' →
      unfoldLines ((c :: s) :: rest) = unfoldLines rest) := by
  refine ⟨?_, fun l => rfl, ?_⟩
  · intro l s c rest hc
    have hcont : isContLine (c :: s) = true := by
      rcases hc with rfl | rfl <;> simp [isContLine]
    simp [unfoldAux, hcont]
  · intro s c rest hc
    have hcont : isContLine (c :: s) = true := by
      rcases hc with rfl | rfl <;> simp [isContLine]
    simp [unfoldLines, unfoldAux, hcont]

/-- Witness for `claim_C4_unfolding`: a folded DESCRIPTION line is
rejoined, a trailing continuation is flushed, and a leading orphan
continuation is dropped. -/
theorem claim_C4_unfolding_witness :
    unfoldAux (some "DESCRIPTION:fo".toList) ((' ' :: "o".toList) :: []) =
      unfoldAux (some ("DESCRIPTION:fo".toList ++ "o".toList)) [] ∧
    unfoldAux (some "DESCRIPTION:foo".toList) [] = ["DESCRIPTION:foo".toList] ∧
    unfoldLines ((' ' :: "orphan".toList) :: []) = unfoldLines [] := by
  have h := claim_C4_unfolding
  exact ⟨h.1 "DESCRIPTION:fo".toList "o".toList ' ' [] (Or.inl rfl),
    h.2.1 "DESCRIPTION:foo".toList,
    h.2.2 "orphan".toList ' ' [] (Or.inl rfl)⟩

/-! ## Claim C5: per-property time zones (spec-modelled) -/

theorem getProp_setProp (m : List (Str × Str)) (k v k' : Str) :
    getProp (setProp m k v) k' = if k' = k then some v else getProp m k' := by
  induction m with
  | nil =>
    simp only [setProp, getProp]
    by_cases h : k' = k
    · subst h; simp
    · have h' : ¬k = k' := fun he => h he.symm
      simp [h, h']
  | cons hd rest ih =>
    obtain ⟨k0, v0⟩ := hd
    simp only [setProp]
    by_cases h0 : k0 = k
    · subst h0
      simp only [if_pos rfl, getProp]
      by_cases h : k' = k0
      · subst h; simp
      · have h' : ¬k0 = k' := fun he => h he.symm
        simp [h, h']
    · simp only [if_neg h0, getProp]
      by_cases h : k0 = k'
      · subst h
        have hne : ¬k0 = k := h0
        simp [hne]
      · simp [h, ih]

/-- Modelled from the spec (§4.2–§4.3): the richer parser's property
handling, absent from the checked-in src/index.js (which reads only
`VALUE=DATE` from the parameters).  Given the parsed property —
`mainKey`, its `NAME=VALUE` parameters and the value — a `TZID=<zone>`
parameter is stored keyed as `"<mainKey>_TZID"`, so the Temporal Resolver
can look the zone up per boundary independently; `VALUE=DATE` sets the
all-day flag; the value is stored under the main key. -/
def storeRichParsed (ev : RawEvent) (mainKey : Str) (params : List (Str × Str))
    (value : Str) : RawEvent :=
  let allDay := ev.isAllDay ||
    params.any (fun p => p.1 = "VALUE".toList && p.2 = "DATE".toList)
  let props1 :=
    match getProp params "TZID".toList with
    | some zone => setProp ev.props (mainKey ++ "_TZID".toList) zone
    | none => ev.props
  { props := setProp props1 mainKey value, isAllDay := allDay }

/-- Modelled from the spec (§4.4): the richer Temporal Resolver,
`resolve(icsValue, isAllDay, zone)` — identical pattern handling to the
checked-in `parseICSDate`, but constructing the instant in the given
fixed-offset zone (an offset of seconds east of UTC; UTC when no zone is
given): local wall-clock time minus the offset. -/
def resolveRichDate (icsDate : Option Str) (isAllDay : Bool) (zone : Option Int)
    (now0 : Int) : Int :=
  match icsDate with
  | none => now0
  | some s0 =>
    if s0.isEmpty then now0
    else
      let z := zone.getD 0
      let s := removeFirstZ s0
      let timed : Int :=
        match matchTimed s with
        | some (y, mo, d, h, mi, sec) => utcInstant y mo d h mi sec - z
        | none => now0
      if isAllDay then
        match matchAllDay s with
        | some (y, mo, d) => utcInstant y mo d 0 0 0 - z
        | none => timed
      else timed

/-- The `DTEND || DTSTART` fallback on the raw property bag. -/
def dtendRaw (ev : RawEvent) : Option Str :=
  match getProp ev.props "DTEND".toList with
  | some s => if s.isEmpty then getProp ev.props "DTSTART".toList else some s
  | none => getProp ev.props "DTSTART".toList

/-- Modelled from the spec (§4.5): the richer Event Formatter, resolving
start and end each in its own per-property zone (`DTSTART_TZID` for the
start; `DTEND_TZID`, falling back to `DTSTART_TZID`, for the end).
`zoneOf` models the IANA zone database (zone name → fixed offset). -/
def formatEventRich (ev : RawEvent) (zoneOf : Str → Int) (now0 : Int) : NormalizedEvent :=
  let startZone := (getProp ev.props "DTSTART_TZID".toList).map zoneOf
  let endZone :=
    match getProp ev.props "DTEND_TZID".toList with
    | some zn => some (zoneOf zn)
    | none => startZone
  { title := (getProp ev.props "SUMMARY".toList).getD []
    start := resolveRichDate (getProp ev.props "DTSTART".toList) ev.isAllDay startZone now0
    stop := resolveRichDate (dtendRaw ev) ev.isAllDay endZone now0
    description := (getProp ev.props "DESCRIPTION".toList).getD []
    isAllDay := ev.isAllDay }

/-- Claim C5 (spec-modelled): a `TZID=<zone>` parameter on `DTSTART` or
`DTEND` is stored keyed to that specific property as `"<PROPERTY>_TZID"`;
the formatter resolves each boundary in its own zone (start and end may
carry different zones); the resolver constructs a matching timed value in
the supplied zone (wall-clock minus offset); and with no zone the instant
is constructed in UTC — i.e. exactly as the checked-in UTC-only
`parseICSDate`. -/
theorem claim_C5_per_property_tzid :
    (∀ (ev : RawEvent) (mainKey : Str) (params : List (Str × Str)) (value zone : Str),
      mainKey = "DTSTART".toList ∨ mainKey = "DTEND".toList →
      getProp params "TZID".toList = some zone →
      getProp (storeRichParsed ev mainKey params value).props (mainKey ++ "_TZID".toList) =
        some zone) ∧
    (∀ (ev : RawEvent) (zoneOf : Str → Int) (now0 : Int) (z1 z2 : Str),
      getProp ev.props "DTSTART_TZID".toList = some z1 →
      getProp ev.props "DTEND_TZID".toList = some z2 →
      (formatEventRich ev zoneOf now0).start =
        resolveRichDate (getProp ev.props "DTSTART".toList) ev.isAllDay
          (some (zoneOf z1)) now0 ∧
      (formatEventRich ev zoneOf now0).stop =
        resolveRichDate (dtendRaw ev) ev.isAllDay (some (zoneOf z2)) now0) ∧
    (∀ (s : Str) (y mo d h mi sec zOff now0 : Int),
      matchTimed (removeFirstZ s) = some (y, mo, d, h, mi, sec) → s ≠ [] →
      resolveRichDate (some s) false (some zOff) now0 = utcInstant y mo d h mi sec - zOff) ∧
    (∀ (v : Option Str) (b : Bool) (now0 : Int),
      resolveRichDate v b none now0 = parseICSDate v b now0) := by
  refine ⟨?_, ?_, ?_, ?_⟩
  · intro ev mainKey params value zone hP hz
    have hne : ¬mainKey ++ "_TZID".toList = mainKey := by
      rcases hP with rfl | rfl <;> decide
    simp only [storeRichParsed, hz, getProp_setProp, if_neg hne]
    simp
  · intro ev zoneOf now0 z1 z2 h1 h2
    have e1 : (formatEventRich ev zoneOf now0).start =
        resolveRichDate (getProp ev.props "DTSTART".toList) ev.isAllDay
          ((getProp ev.props "DTSTART_TZID".toList).map zoneOf) now0 := rfl
    have e2 : (formatEventRich ev zoneOf now0).stop =
        resolveRichDate (dtendRaw ev) ev.isAllDay
          (match getProp ev.props "DTEND_TZID".toList with
           | some zn => some (zoneOf zn)
           | none => (getProp ev.props "DTSTART_TZID".toList).map zoneOf) now0 := rfl
    rw [e1, e2, h1, h2]
    exact ⟨rfl, rfl⟩
  · intro s y mo d h mi sec zOff now0 hm hs
    cases s with
    | nil => exact absurd rfl hs
    | cons c cs => simp [resolveRichDate, hm]
  · intro v b now0
    cases v with
    | none => rfl
    | some s =>
      cases s with
      | nil => rfl
      | cons c cs =>
        cases b with
        | false =>
          cases hm : matchTimed (removeFirstZ (c :: cs)) with
          | none => simp [resolveRichDate, parseICSDate, hm]
          | some t =>
            obtain ⟨y, mo, d, h, mi, sec⟩ := t
            simp [resolveRichDate, parseICSDate, hm]
        | true =>
          cases hm2 : matchAllDay (removeFirstZ (c :: cs)) with
          | none =>
            cases hm : matchTimed (removeFirstZ (c :: cs)) with
            | none => simp [resolveRichDate, parseICSDate, hm, hm2]
            | some t =>
              obtain ⟨y, mo, d, h, mi, sec⟩ := t
              simp [resolveRichDate, parseICSDate, hm, hm2]
          | some t =>
            obtain ⟨y, mo, d⟩ := t
            simp [resolveRichDate, parseICSDate, hm2]

/-- Witness for `claim_C5_per_property_tzid` at concrete values. -/
theorem claim_C5_per_property_tzid_witness :
    getProp (storeRichParsed ⟨[], false⟩ "DTSTART".toList
        [("TZID".toList, "X".toList)] "19700102T000000".toList).props
      ("DTSTART".toList ++ "_TZID".toList) = some "X".toList ∧
    ((formatEventRich ⟨[("DTSTART".toList, "19700102T000000".toList),
        ("DTSTART_TZID".toList, "A".toList), ("DTEND_TZID".toList, "B".toList)], false⟩
        (fun zn => if zn = "A".toList then 3600 else 7200) 99).start =
      resolveRichDate (getProp [("DTSTART".toList, "19700102T000000".toList),
        ("DTSTART_TZID".toList, "A".toList), ("DTEND_TZID".toList, "B".toList)]
        "DTSTART".toList) false (some 3600) 99) ∧
    resolveRichDate (some "19700102T060000".toList) false (some 3600) 99 =
      utcInstant 1970 1 2 6 0 0 - 3600 ∧
    resolveRichDate (some "19700102".toList) false none 99 =
      parseICSDate (some "19700102".toList) false 99 := by
  have h := claim_C5_per_property_tzid
  refine ⟨h.1 ⟨[], false⟩ "DTSTART".toList [("TZID".toList, "X".toList)]
      "19700102T000000".toList "X".toList (Or.inl rfl) (by decide), ?_, ?_, ?_⟩
  · have hb := h.2.1 ⟨[("DTSTART".toList, "19700102T000000".toList),
      ("DTSTART_TZID".toList, "A".toList), ("DTEND_TZID".toList, "B".toList)], false⟩
      (fun zn => if zn = "A".toList then 3600 else 7200) 99 "A".toList "B".toList
      (by decide) (by decide)
    simpa using hb.1
  · exact h.2.2.1 "19700102T060000".toList 1970 1 2 6 0 0 3600 99 (by decide) (by decide)
  · exact h.2.2.2 (some "19700102".toList) false 99

/-! ## Claim C7: startFrom resolution (spec-modelled), and the pipeline -/

def isLeapYear (y : Int) : Bool := (y % 4 == 0 && y % 100 != 0) || (y % 400 == 0)

def daysInMonth (y m : Int) : Int :=
  if m = 2 then (if isLeapYear y then 29 else 28)
  else if m = 4 ∨ m = 6 ∨ m = 9 ∨ m = 11 then 30 else 31

/-- A strict `yyyy-MM-dd` calendar-date parse with real-calendar
validation (months 1–12, day within the month, Gregorian leap years),
as luxon's `DateTime.fromFormat(s, 'yyyy-MM-dd')` validity check. -/
def parseYMD (s : Str) : Option (Int × Int × Int) :=
  match s with
  | [y1, y2, y3, y4, '-', m1, m2, '-', d1, d2] =>
    if allDigits [y1, y2, y3, y4, m1, m2, d1, d2] then
      let y := digitsVal [y1, y2, y3, y4]
      let m := digitsVal [m1, m2]
      let d := digitsVal [d1, d2]
      if 1 ≤ m ∧ m ≤ 12 ∧ 1 ≤ d ∧ d ≤ daysInMonth y m then some (y, m, d) else none
    else none
  | _ => none

/-- Modelled from the spec: the richer engine's `startFrom` resolution is
absent from the checked-in src/index.js (only its test file references
`request.startFrom`).  Spec §4.6 step 1: windowStart is the start-of-day,
in the target timezone, of today's date when `startFrom == "now"`, and
otherwise of the parsed `startFrom` date; a `startFrom` that fails to
parse as a valid date falls back to today's date, never failing the
request. -/
def resolveWindowStart (startFrom : Str) (z now0 : Int) : Int :=
  if startFrom = "now".toList then startOfDay z now0
  else
    match parseYMD startFrom with
    | some (y, m, d) => dayStart z (daysFromCivil y m d)
    | none => startOfDay z now0

/-- The richer result's `request` metadata, which echoes the resolved
windowStart as `startFrom` (spec §4.6 step 10). -/
structure RichRequestInfo where
  calendar : Str
  days : Int
  requestedTimezone : Int
  startFrom : Int
deriving Repr, DecidableEq

structure RichGroupedResult where
  agenda : List AgendaDay
  timezone : Int
  request : RichRequestInfo
deriving Repr, DecidableEq

/-- Modelled from the spec: the richer `createGroupedEvents` with
`startFrom` support — identical to the checked-in engine except that the
window start comes from `resolveWindowStart` and is echoed in the
metadata. -/
def createGroupedEventsRich (events : List NormalizedEvent) (days z : Int) (startFrom : Str)
    (url : Str) (now0 : Int) : RichGroupedResult :=
  let ws := resolveWindowStart startFrom z now0
  let endDate := ws + days * 86400
  let grouped := groupPairs events z ws endDate
  let sortedWithin := grouped.map (fun p => (p.1, sortCmp segCmp p.2))
  let agenda := (sortCmp (fun a b => if a.1 < b.1 then (-1 : Int) else 1) sortedWithin).map
    (fun p => AgendaDay.mk p.1 p.2)
  { agenda := agenda, timezone := z,
    request := { calendar := getCalendarDomain url, days := days, requestedTimezone := z,
                 startFrom := ws } }

/-- Claim C7 (spec-modelled): windowStart is the start-of-day in the
target timezone of today's date when `startFrom == "now"` and otherwise
of the parsed `startFrom` date; a `startFrom` that fails to parse falls
back to today's date without error (the resolver is total); and the
resolved windowStart is echoed as `startFrom` in the response metadata. -/
theorem claim_C7_startFrom (events : List NormalizedEvent) (days z : Int) (url : Str)
    (now0 : Int) (s : Str) :
    (s = "now".toList → resolveWindowStart s z now0 = startOfDay z now0) ∧
    (∀ y m d, parseYMD s = some (y, m, d) → s ≠ "now".toList →
      resolveWindowStart s z now0 = dayStart z (daysFromCivil y m d)) ∧
    (parseYMD s = none → resolveWindowStart s z now0 = startOfDay z now0) ∧
    (createGroupedEventsRich events days z s url now0).request.startFrom =
      resolveWindowStart s z now0 := by
  refine ⟨?_, ?_, ?_, rfl⟩
  · intro hs
    simp [resolveWindowStart, hs]
  · intro y m d hp hs
    unfold resolveWindowStart
    rw [if_neg hs, hp]
  · intro hp
    by_cases hs : s = "now".toList
    · simp [resolveWindowStart, hs]
    · unfold resolveWindowStart
      rw [if_neg hs, hp]

/-- Witness for `claim_C7_startFrom`: the spec's Scenario D value
"not-a-date" falls back to today, "now" resolves to today, a valid ISO
date resolves to that date's local midnight, and the metadata echo. -/
theorem claim_C7_startFrom_witness :
    resolveWindowStart "not-a-date".toList 0 12345 = startOfDay 0 12345 ∧
    resolveWindowStart "now".toList 0 12345 = startOfDay 0 12345 ∧
    resolveWindowStart "1970-01-05".toList 0 12345 = dayStart 0 (daysFromCivil 1970 1 5) ∧
    (createGroupedEventsRich [] 7 0 "not-a-date".toList "u".toList 12345).request.startFrom =
      resolveWindowStart "not-a-date".toList 0 12345 := by
  have ha := claim_C7_startFrom [] 7 0 "u".toList 12345 "not-a-date".toList
  have hb := claim_C7_startFrom [] 7 0 "u".toList 12345 "now".toList
  have hc := claim_C7_startFrom [] 7 0 "u".toList 12345 "1970-01-05".toList
  exact ⟨ha.2.2.1 (by decide), hb.1 rfl, hc.2.1 1970 1 5 (by decide) (by decide), ha.2.2.2⟩

/-! ## Claim C8: determinism of the pipeline -/

/-- The full pipeline, feed text to agenda, as one function of its inputs
plus the injected reference instant (spec §6's `buildAgenda`). -/
def buildAgenda (feedText : Str) (days z : Int) (startFrom : Str) (url : Str)
    (now0 : Int) : RichGroupedResult :=
  createGroupedEventsRich (parseICS feedText now0) days z startFrom url now0

/-- Claim C8: the pipeline is a pure, deterministic function — two
invocations on identical feed text, days, timezone, startFrom, source URL
and the same reference "current instant" produce identical outputs.  In
this embedding every stage is a mathematical function of exactly these
arguments (the only ambient input of the source, `DateTime.now()`, is the
explicit `now0`), so equal inputs give equal outputs. -/
theorem claim_C8_deterministic (f1 f2 : Str) (d1 d2 z1 z2 : Int) (s1 s2 u1 u2 : Str)
    (n1 n2 : Int) (hf : f1 = f2) (hd : d1 = d2) (hz : z1 = z2) (hs : s1 = s2)
    (hu : u1 = u2) (hn : n1 = n2) :
    buildAgenda f1 d1 z1 s1 u1 n1 = buildAgenda f2 d2 z2 s2 u2 n2 := by
  subst hf hd hz hs hu hn
  rfl

/-- Witness for `claim_C8_deterministic` on a concrete one-event feed. -/
theorem claim_C8_deterministic_witness :
    buildAgenda "BEGIN:VEVENT\nSUMMARY:T\nDTSTART:19700105T100000Z\nEND:VEVENT".toList
        7 0 "now".toList "https://example.com/c.ics".toList 0 =
      buildAgenda "BEGIN:VEVENT\nSUMMARY:T\nDTSTART:19700105T100000Z\nEND:VEVENT".toList
        7 0 "now".toList "https://example.com/c.ics".toList 0 :=
  claim_C8_deterministic _ _ _ _ _ _ _ _ _ _ _ _ rfl rfl rfl rfl rfl rfl

/-! ## Claim C9: API-key validation (`validateApiKey`) -/

/-- Outcome of `validateApiKey`: the function either returns `true` or
throws an `Error` with a message; it never returns `false`. -/
inductive AuthOutcome where
  | ok : AuthOutcome
  | err (msg : Str) : AuthOutcome
deriving Repr, DecidableEq

/-- The environment bindings `validateApiKey` reads. -/
structure AuthEnv where
  environment : Option Str
  nodeEnv : Option Str
  masterKey : Option Str
deriving Repr, DecidableEq

/-- JS truthiness of a possibly-absent string (absent or empty is falsy). -/
def strTruthy : Option Str → Bool
  | none => false
  | some s => !s.isEmpty

/-- Models `validateApiKey(apiKey, env, request)` of src/index.js.
`hmacHex` abstracts the `crypto.subtle` HMAC-SHA256 primitive as a
function from (key bytes, message) to the lowercase hex digest string;
`z` is the system zone offset luxon uses for `fromFormat` and `now`, and
`nowI` the current instant.  `headerKey`/`urlKey` model the `X-API-Key`
header and the `key` URL parameter. -/
def validateApiKey (hmacHex : Str → Str → Str) (env : AuthEnv) (z nowI : Int)
    (headerKey urlKey : Option Str) : AuthOutcome :=
  if env.environment = some "development".toList ∨ env.nodeEnv = some "development".toList then
    .ok
  else if !strTruthy env.masterKey then
    .err "Server configuration error: Authentication is not properly configured".toList
  else
    let mk := env.masterKey.getD []
    let apiKey? := if strTruthy headerKey then headerKey else urlKey
    match apiKey? with
    | none => .err "No API key provided in header or URL parameters".toList
    | some apiKey =>
      if apiKey.isEmpty then .err "No API key provided in header or URL parameters".toList
      else
        match splitOnChar '_' apiKey with
        | [pfx, rnd, expiry, providedSignature] =>
          if pfx ≠ "stucal".toList then .err "Invalid API key prefix".toList
          else
            match parseYMD expiry with
            | none => .err "Invalid expiry date format in API key".toList
            | some (y, m, d) =>
              if dayStart z (daysFromCivil y m d) < nowI then
                .err "API key has expired".toList
              else
                let keyContent := pfx ++ '_' :: rnd ++ '_' :: expiry
                let expected := (hmacHex (mk.take 3) keyContent).take 8
                if expected ≠ providedSignature then
                  .err "Invalid API key signature".toList
                else .ok
        | _ => .err "Invalid API key format".toList

/-- `validateApiKey` in production with a non-empty master key and a
non-empty header key, reduced past the environment plumbing. -/
theorem validateApiKey_reduce (hmacHex : Str → Str → Str) (env : AuthEnv) (z nowI : Int)
    (s mk : Str)
    (hdev : ¬(env.environment = some "development".toList ∨
      env.nodeEnv = some "development".toList))
    (hmk : env.masterKey = some mk) (hmk2 : mk.isEmpty = false) (hkey : s.isEmpty = false) :
    validateApiKey hmacHex env z nowI (some s) none =
      (match splitOnChar '_' s with
       | [pfx, rnd, expiry, sig] =>
         if pfx ≠ "stucal".toList then AuthOutcome.err "Invalid API key prefix".toList
         else
           match parseYMD expiry with
           | none => AuthOutcome.err "Invalid expiry date format in API key".toList
           | some (y, m, d) =>
             if dayStart z (daysFromCivil y m d) < nowI then
               AuthOutcome.err "API key has expired".toList
             else if (hmacHex (mk.take 3) (pfx ++ '_' :: rnd ++ '_' :: expiry)).take 8 ≠ sig then
               AuthOutcome.err "Invalid API key signature".toList
             else AuthOutcome.ok
       | _ => AuthOutcome.err "Invalid API key format".toList) := by
  unfold validateApiKey
  rw [if_neg hdev, hmk]
  simp [strTruthy, hmk2, hkey]

/-- Claim C9, original wording, is false on the expiry comparison: the
code compares the expiry's midnight instant against the current INSTANT
(`expiryDate < DateTime.now()`), not the current date.  A key whose
expiry is today's date — "not earlier than the current date" — is
rejected as expired once the time is past local midnight (here: expiry
1970-01-01, now 01:00 on 1970-01-01), even though all four of the claim's
conditions hold. -/
theorem claim_C9_cex :
    validateApiKey (fun k m => k ++ m) ⟨none, none, some "abcdef".toList⟩ 0 3600
        (some "stucal_r_1970-01-01_abcstuca".toList) none =
      AuthOutcome.err "API key has expired".toList ∧
    splitOnChar '_' "stucal_r_1970-01-01_abcstuca".toList =
      ["stucal".toList, "r".toList, "1970-01-01".toList, "abcstuca".toList] ∧
    parseYMD "1970-01-01".toList = some (1970, 1, 1) ∧
    daysFromCivil 1970 1 1 = localDay 0 3600 ∧
    (((fun (k m : Str) => k ++ m) ("abcdef".toList.take 3)
        "stucal_r_1970-01-01".toList).take 8) = "abcstuca".toList := by decide

/-- Claim C9 (amended): in production (non-development environment,
non-empty master key, key supplied), validation succeeds if and only if
the key splits on underscores into exactly four parts
`pfx_random_expiry_signature`, the first part equals "stucal", the expiry
parses as a valid `yyyy-MM-dd` date whose local-midnight instant is not
before the current instant (so a key expiring today is rejected once past
midnight), and the signature equals the first 8 hex characters of the
HMAC-SHA256 of `pfx_random_expiry` under the key derived from the first
three characters of the master secret; any failing condition yields an
error, never acceptance. -/
theorem claim_C9_validation (hmacHex : Str → Str → Str) (env : AuthEnv) (z nowI : Int)
    (s mk : Str)
    (hdev : ¬(env.environment = some "development".toList ∨
      env.nodeEnv = some "development".toList))
    (hmk : env.masterKey = some mk) (hmk2 : mk.isEmpty = false) (hkey : s.isEmpty = false) :
    validateApiKey hmacHex env z nowI (some s) none = AuthOutcome.ok ↔
      ∃ pfx rnd expiry sig y m d,
        splitOnChar '_' s = [pfx, rnd, expiry, sig] ∧ pfx = "stucal".toList ∧
        parseYMD expiry = some (y, m, d) ∧ ¬dayStart z (daysFromCivil y m d) < nowI ∧
        sig = (hmacHex (mk.take 3) (pfx ++ '_' :: rnd ++ '_' :: expiry)).take 8 := by
  rw [validateApiKey_reduce hmacHex env z nowI s mk hdev hmk hmk2 hkey]
  constructor
  · intro hok
    split at hok
    case h_2 => cases hok
    case h_1 pfx rnd expiry sig hsplit =>
      by_cases hp : pfx ≠ "stucal".toList
      · rw [if_pos hp] at hok
        cases hok
      · rw [if_neg hp] at hok
        split at hok
        next => cases hok
        next y m d hd =>
          by_cases hexp : dayStart z (daysFromCivil y m d) < nowI
          · rw [if_pos hexp] at hok
            cases hok
          · rw [if_neg hexp] at hok
            by_cases hsig :
                (hmacHex (mk.take 3) (pfx ++ '_' :: rnd ++ '_' :: expiry)).take 8 ≠ sig
            · rw [if_pos hsig] at hok
              cases hok
            · push_neg at hp hsig
              exact ⟨pfx, rnd, expiry, sig, y, m, d, hsplit, hp, hd, hexp, hsig.symm⟩
  · rintro ⟨pfx, rnd, expiry, sig, y, m, d, h4, rfl, hp, hexp, rfl⟩
    rw [h4]
    simp [hp, hexp]

/-- Witness for `claim_C9_validation`: a structurally valid, unexpired,
correctly signed key is accepted. -/
theorem claim_C9_validation_witness :
    validateApiKey (fun k m => k ++ m) ⟨none, none, some "abcdef".toList⟩ 0 0
        (some "stucal_r_2099-01-02_abcstuca".toList) none = AuthOutcome.ok :=
  (claim_C9_validation (fun k m => k ++ m) ⟨none, none, some "abcdef".toList⟩ 0 0
      "stucal_r_2099-01-02_abcstuca".toList "abcdef".toList (by decide) rfl (by decide)
      (by decide)).mpr
    ⟨"stucal".toList, "r".toList, "2099-01-02".toList, "abcstuca".toList, 2099, 1, 2,
      by decide, rfl, by decide, by decide, by decide⟩
